import Mathlib

/-!
# The `showcase` NEST extension module (`showcase/build/showcase.cpp`)

A shallow embedding of the module descriptor `showcase`: its three member
functions `name`, `commandstring` and `init`, run against a host kernel that
owns the model registry.

* C++ statements that may throw are functions `σ → Except ε α × σ`: the host
  state reached when an exception is thrown is kept, as C++ performs no
  rollback of the side effects already made.
* `register_node_model<T>(name)` belongs to the host kernel, which is not part
  of `showcase.cpp`; it is a field of `Host`, so `init` is embedded for every
  host, and `modelManager` is the host the specification describes.
-/

namespace ShowcaseModule

/-! ## Statements with host side effects and exceptions -/

/-- A C++ computation over host state `σ` that returns an `α` or throws an `ε`.
The second component is the host state when control leaves the computation,
by return or by exception. -/
def Effect (σ ε α : Type) : Type := σ → Except ε α × σ

/-- Return `a` without touching the host state. -/
def Effect.pure {σ ε α : Type} (a : α) : Effect σ ε α :=
  fun s => (Except.ok a, s)

/-- Sequencing of statements: when the first throws, the exception leaves the
sequence at once with the state reached so far and the rest is not run. -/
def Effect.bind {σ ε α β : Type} (x : Effect σ ε α) (f : α → Effect σ ε β) : Effect σ ε β :=
  fun s =>
    match x s with
    | (Except.ok a, s1) => f a s1
    | (Except.error e, s1) => (Except.error e, s1)

instance instMonadEffect {σ ε : Type} : Monad (Effect σ ε) where
  pure := Effect.pure
  bind := Effect.bind

/-! ## Data model -/

/-- A neuron model class, the template argument of `register_node_model<T>`,
denoted by its C++ identifier. -/
structure ModelClass where
  ident : String
  deriving DecidableEq, Repr

/-- The argument `SLIInterpreter *i` of `init`: the null handle, or the address
of an interpreter object of the host. -/
abbrev SLIInterpreterPtr : Type := Option Nat

/-- The interface of the host kernel that `showcase.cpp` consumes:
`nest::kernel().model_manager.register_node_model<T>(name)`. -/
structure Host (σ ε : Type) where
  register_node_model : ModelClass → String → Effect σ ε Unit

/-- The module descriptor class `showcase`; it has no data members. -/
structure showcase where
  deriving DecidableEq, Repr

/-! ## Member functions of `showcase` -/

/-- The member function `showcase::name`. -/
def showcase.name {σ ε : Type} (_self : showcase) : Effect σ ε String :=
  pure "showcase"

/-- The member function `showcase::commandstring`. -/
def showcase.commandstring {σ ε : Type} (_self : showcase) : Effect σ ε String :=
  pure "(showcase-init) run"

/-- The member function `showcase::init`: five registration statements in
source order; the handle `i` is not used. -/
def showcase.init {σ ε : Type} (_self : showcase) (host : Host σ ε)
    (_i : SLIInterpreterPtr) : Effect σ ε Unit := do
  host.register_node_model ⟨"iaf_cond_alpha_implicit"⟩ "iaf_cond_alpha_implicit"
  host.register_node_model ⟨"iaf_psc_alpha_neuron"⟩ "iaf_psc_alpha_neuron"
  host.register_node_model ⟨"iaf_cond_alpha_neuron"⟩ "iaf_cond_alpha_neuron"
  host.register_node_model ⟨"ht_neuron_nestml"⟩ "ht_neuron_nestml"
  host.register_node_model ⟨"iaf_psc_alpha_multisynapse_neuron"⟩
    "iaf_psc_alpha_multisynapse_neuron"

/-! ## Observing the calls a computation makes -/

/-- One call `register_node_model<cls>(name)`. -/
structure Call where
  cls : ModelClass
  name : String
  deriving DecidableEq, Repr

/-- The host `h` with a call log next to its state: every registration call is
appended to the log when it is made, whether it then returns or throws, and is
otherwise passed to `h` unchanged. -/
def Host.traced {σ ε : Type} (h : Host σ ε) : Host (σ × List Call) ε where
  register_node_model c n := fun st =>
    ((h.register_node_model c n st.1).1, ((h.register_node_model c n st.1).2, st.2 ++ [⟨c, n⟩]))

/-- The registration calls written in the body of `showcase::init`, in source
order. -/
def initCalls : List Call :=
  [ ⟨⟨"iaf_cond_alpha_implicit"⟩, "iaf_cond_alpha_implicit"⟩,
    ⟨⟨"iaf_psc_alpha_neuron"⟩, "iaf_psc_alpha_neuron"⟩,
    ⟨⟨"iaf_cond_alpha_neuron"⟩, "iaf_cond_alpha_neuron"⟩,
    ⟨⟨"ht_neuron_nestml"⟩, "ht_neuron_nestml"⟩,
    ⟨⟨"iaf_psc_alpha_multisynapse_neuron"⟩, "iaf_psc_alpha_multisynapse_neuron"⟩ ]

/-- Perform the listed registration calls one after the other, as consecutive
C++ statements. -/
def Host.runCalls {σ ε : Type} (h : Host σ ε) : List Call → Effect σ ε Unit
  | [] => pure ()
  | c :: cs => do
    h.register_node_model c.cls c.name
    h.runCalls cs

/-! ## The host's model registry -/

/-- The host's model registry: the entries (name, model class) in the order
of their registration. -/
abbrev Registry : Type := List (String × ModelClass)

/-- A name is registered when some entry of the registry carries it. -/
def Registry.registered (r : Registry) (n : String) : Prop :=
  n ∈ r.map Prod.fst

instance Registry.instDecidableRegistered (r : Registry) (n : String) :
    Decidable (Registry.registered r n) :=
  inferInstanceAs (Decidable (n ∈ r.map Prod.fst))

/-- Resolve a name to the model class registered under it. -/
def Registry.resolve (r : Registry) (n : String) : Option ModelClass :=
  (r.find? (fun e => e.1 == n)).map Prod.snd

/-- The errors of the host kernel that the registration can raise. -/
inductive HostError where
  | duplicateName (name : String)
  deriving DecidableEq, Repr

/-- The state of a host session: the model registry of the kernel and the
memory `ι` of its SLI interpreter objects. -/
structure HostState (ι : Type) where
  registry : Registry
  interp : ι
  deriving DecidableEq, Repr

/-- Modelled from the spec: the host's "register node model by name" operation
(`model_manager.register_node_model`, defined in the NEST kernel and not in
`showcase.cpp`). It fails with the duplicate-name error when the name is
already present in the registry and leaves the registry as it is; otherwise it
inserts the entry (name, model class). It touches nothing but the registry. -/
def modelManager {ι : Type} : Host (HostState ι) HostError where
  register_node_model c n := fun s =>
    if Registry.registered s.registry n then
      (Except.error (HostError.duplicateName n), s)
    else
      (Except.ok (), ⟨s.registry ++ [(n, c)], s.interp⟩)

deriving instance DecidableEq for Except

/-- The registry entry a successful call inserts. -/
def Call.entry (c : Call) : String × ModelClass := (c.name, c.cls)

/-! ## Sequencing lemmas -/

section Generic

variable {σ ε : Type}

theorem Effect.bind_ok {α β : Type} (x : Effect σ ε α) (f : α → Effect σ ε β) {s s1 : σ} {a : α}
    (hx : x s = (Except.ok a, s1)) : (x >>= f) s = f a s1 := by
  show Effect.bind x f s = f a s1
  simp [Effect.bind, hx]

theorem Effect.bind_error {α β : Type} (x : Effect σ ε α) (f : α → Effect σ ε β) {s s1 : σ} {e : ε}
    (hx : x s = (Except.error e, s1)) : (x >>= f) s = (Except.error e, s1) := by
  show Effect.bind x f s = (Except.error e, s1)
  simp [Effect.bind, hx]

theorem Effect.bind_pure_unit (x : Effect σ ε Unit) :
    (x >>= fun _ => (pure () : Effect σ ε Unit)) = x := by
  funext s
  rcases hx : x s with ⟨r, s1⟩
  cases r with
  | error e => exact Effect.bind_error x _ hx
  | ok u => exact Effect.bind_ok x _ hx

theorem Host.runCalls_nil (h : Host σ ε) (s : σ) : h.runCalls [] s = (Except.ok (), s) := rfl

theorem Host.runCalls_cons_ok (h : Host σ ε) (c : Call) (cs : List Call) {s s1 : σ} {u : Unit}
    (hc : h.register_node_model c.cls c.name s = (Except.ok u, s1)) :
    h.runCalls (c :: cs) s = h.runCalls cs s1 :=
  Effect.bind_ok _ _ hc

theorem Host.runCalls_cons_error (h : Host σ ε) (c : Call) (cs : List Call) {s s1 : σ} {e : ε}
    (hc : h.register_node_model c.cls c.name s = (Except.error e, s1)) :
    h.runCalls (c :: cs) s = (Except.error e, s1) :=
  Effect.bind_error _ _ hc

theorem Host.runCalls_append_ok (h : Host σ ε) (as bs : List Call) {s s1 : σ} {u : Unit}
    (ha : h.runCalls as s = (Except.ok u, s1)) :
    h.runCalls (as ++ bs) s = h.runCalls bs s1 := by
  induction as generalizing s with
  | nil =>
    rw [Host.runCalls_nil] at ha
    cases ha
    rfl
  | cons c cs ih =>
    rcases hc : h.register_node_model c.cls c.name s with ⟨r, s2⟩
    cases r with
    | error e =>
      rw [Host.runCalls_cons_error h c cs hc] at ha
      cases ha
    | ok v =>
      rw [Host.runCalls_cons_ok h c cs hc] at ha
      rw [List.cons_append, Host.runCalls_cons_ok h c _ hc]
      exact ih ha

/-- When the call at position `k` is the first to throw, the whole sequence
throws the same exception from the same state. -/
theorem Host.runCalls_first_failure (h : Host σ ε) (cs : List Call) (k : Nat) (hk : k < cs.length)
    {s sk s1 : σ} {e : ε}
    (hpre : h.runCalls (cs.take k) s = (Except.ok (), sk))
    (hfail : h.register_node_model (cs.get ⟨k, hk⟩).cls (cs.get ⟨k, hk⟩).name sk
      = (Except.error e, s1)) :
    h.runCalls cs s = (Except.error e, s1) := by
  have hsplit : cs = cs.take k ++ cs.get ⟨k, hk⟩ :: cs.drop (k + 1) := by
    rw [List.get_eq_getElem, List.getElem_cons_drop, List.take_append_drop]
  rw [hsplit, Host.runCalls_append_ok h _ _ hpre]
  exact Host.runCalls_cons_error h _ _ hfail

/-- The body of `init` is the sequence of the calls `initCalls`. -/
theorem showcase.init_eq_runCalls (self : showcase) (h : Host σ ε) (i : SLIInterpreterPtr) :
    self.init h i = h.runCalls initCalls := by
  have e : h.runCalls [⟨⟨"iaf_psc_alpha_multisynapse_neuron"⟩,
      "iaf_psc_alpha_multisynapse_neuron"⟩]
      = h.register_node_model ⟨"iaf_psc_alpha_multisynapse_neuron"⟩
          "iaf_psc_alpha_multisynapse_neuron" :=
    Effect.bind_pure_unit _
  unfold initCalls
  rw [Host.runCalls, Host.runCalls, Host.runCalls, Host.runCalls, e]
  rfl

/-- Tracing does not change what the host does: outcome and host state of a
traced run are those of the plain run. -/
theorem Host.traced_runCalls_erase (h : Host σ ε) (cs : List Call) (s : σ) (log : List Call) :
    (h.traced.runCalls cs (s, log)).1 = (h.runCalls cs s).1
      ∧ (h.traced.runCalls cs (s, log)).2.1 = (h.runCalls cs s).2 := by
  induction cs generalizing s log with
  | nil => exact ⟨rfl, rfl⟩
  | cons c cs ih =>
    rcases hc : h.register_node_model c.cls c.name s with ⟨r, s2⟩
    have ht : h.traced.register_node_model c.cls c.name (s, log) = (r, (s2, log ++ [c])) := by
      simp [Host.traced, hc]
    cases r with
    | error e =>
      rw [Host.runCalls_cons_error h c cs hc, Host.runCalls_cons_error h.traced c cs ht]
      exact ⟨rfl, rfl⟩
    | ok v =>
      rw [Host.runCalls_cons_ok h c cs hc, Host.runCalls_cons_ok h.traced c cs ht]
      exact ih s2 _

/-- A run in which no call throws has logged exactly its calls, in order. -/
theorem Host.traced_runCalls_ok (h : Host σ ε) (cs : List Call) {s s1 : σ} {u : Unit}
    (log : List Call) (hok : h.runCalls cs s = (Except.ok u, s1)) :
    h.traced.runCalls cs (s, log) = (Except.ok (), (s1, log ++ cs)) := by
  induction cs generalizing s log with
  | nil =>
    rw [Host.runCalls_nil] at hok
    cases hok
    simp [Host.runCalls_nil]
  | cons c cs ih =>
    rcases hc : h.register_node_model c.cls c.name s with ⟨r, s2⟩
    have ht : h.traced.register_node_model c.cls c.name (s, log) = (r, (s2, log ++ [c])) := by
      simp [Host.traced, hc]
    cases r with
    | error e =>
      rw [Host.runCalls_cons_error h c cs hc] at hok
      cases hok
    | ok v =>
      rw [Host.runCalls_cons_ok h c cs hc] at hok
      rw [Host.runCalls_cons_ok h.traced c cs ht, ih _ hok]
      simp

/-- When the call at position `k` is the first to throw, the log holds the
calls up to and including that one and none after it. -/
theorem Host.traced_runCalls_first_failure (h : Host σ ε) (cs : List Call) (k : Nat)
    (hk : k < cs.length) {s sk s1 : σ} {e : ε} (log : List Call)
    (hpre : h.runCalls (cs.take k) s = (Except.ok (), sk))
    (hfail : h.register_node_model (cs.get ⟨k, hk⟩).cls (cs.get ⟨k, hk⟩).name sk
      = (Except.error e, s1)) :
    h.traced.runCalls cs (s, log) = (Except.error e, (s1, log ++ cs.take (k + 1))) := by
  have hpre1 := Host.traced_runCalls_ok h (cs.take k) log hpre
  have hfail1 : h.traced.register_node_model (cs.get ⟨k, hk⟩).cls (cs.get ⟨k, hk⟩).name
      (sk, log ++ cs.take k) = (Except.error e, (s1, log ++ cs.take (k + 1))) := by
    have ht : cs.take (k + 1) = cs.take k ++ [cs.get ⟨k, hk⟩] := by
      rw [← List.take_concat_get cs k hk, List.concat_eq_append, List.get_eq_getElem]
    show ((h.register_node_model _ _ sk).1, ((h.register_node_model _ _ sk).2, _)) = _
    rw [hfail, ht, List.append_assoc]
  exact Host.runCalls_first_failure h.traced cs k hk hpre1 hfail1

end Generic

/-! ## Lemmas on the modelled registry -/

section Model

variable {ι : Type}

theorem Registry.registered_append (r : Registry) (e : String × ModelClass) (n : String) :
    Registry.registered (r ++ [e]) n ↔ Registry.registered r n ∨ n = e.1 := by
  simp [Registry.registered]

theorem Registry.registered_append_list (r r1 : Registry) (n : String) :
    Registry.registered (r ++ r1) n ↔ Registry.registered r n ∨ Registry.registered r1 n := by
  simp [Registry.registered]

theorem Registry.registered_entries (cs : List Call) (n : String) :
    Registry.registered (cs.map Call.entry) n ↔ n ∈ cs.map Call.name := by
  simp [Registry.registered, Call.entry]

theorem modelManager_register_fresh (c : ModelClass) (n : String) (w : HostState ι)
    (hn : ¬ Registry.registered w.registry n) :
    (modelManager : Host (HostState ι) HostError).register_node_model c n w
      = (Except.ok (), ⟨w.registry ++ [(n, c)], w.interp⟩) := by
  simp [modelManager, hn]

theorem modelManager_register_dup (c : ModelClass) (n : String) (w : HostState ι)
    (hn : Registry.registered w.registry n) :
    (modelManager : Host (HostState ι) HostError).register_node_model c n w
      = (Except.error (HostError.duplicateName n), w) := by
  simp [modelManager, hn]

/-- On fresh, pairwise distinct names every call of the run returns and the
registry grows by exactly the entries of the calls. -/
theorem modelManager_runCalls_fresh (cs : List Call) (w : HostState ι)
    (hfresh : ∀ c ∈ cs, ¬ Registry.registered w.registry c.name)
    (hnodup : (cs.map Call.name).Nodup) :
    (modelManager : Host (HostState ι) HostError).runCalls cs w
      = (Except.ok (), ⟨w.registry ++ cs.map Call.entry, w.interp⟩) := by
  induction cs generalizing w with
  | nil => simp [Host.runCalls_nil]
  | cons c cs ih =>
    have hc := modelManager_register_fresh c.cls c.name w (hfresh c (List.mem_cons_self _ _))
    rw [Host.runCalls_cons_ok _ c cs hc]
    rw [List.map_cons, List.nodup_cons] at hnodup
    have hfresh1 : ∀ d ∈ cs, ¬ Registry.registered
        (⟨w.registry ++ [(c.name, c.cls)], w.interp⟩ : HostState ι).registry d.name := by
      intro d hd hreg
      rcases (Registry.registered_append _ _ _).1 hreg with h1 | h1
      · exact hfresh d (List.mem_cons_of_mem _ hd) h1
      · have h2 : d.name = c.name := h1
        exact hnodup.1 (h2 ▸ List.mem_map_of_mem Call.name hd)
    rw [ih _ hfresh1 hnodup.2]
    simp [Call.entry]

/-- A run in which no call throws started from a registry without any of the
names, and the names are pairwise distinct. -/
theorem modelManager_runCalls_ok_inv (cs : List Call) (w : HostState ι)
    (hok : ((modelManager : Host (HostState ι) HostError).runCalls cs w).1 = Except.ok ()) :
    (∀ c ∈ cs, ¬ Registry.registered w.registry c.name) ∧ (cs.map Call.name).Nodup := by
  induction cs generalizing w with
  | nil => simp
  | cons c cs ih =>
    by_cases hreg : Registry.registered w.registry c.name
    · rw [Host.runCalls_cons_error _ c cs (modelManager_register_dup c.cls c.name w hreg)] at hok
      cases hok
    · rw [Host.runCalls_cons_ok _ c cs (modelManager_register_fresh c.cls c.name w hreg)] at hok
      have h1 := ih _ hok
      refine ⟨?_, ?_⟩
      · intro d hd
        rcases List.mem_cons.1 hd with rfl | hd
        · exact hreg
        · exact fun hr => h1.1 d hd ((Registry.registered_append _ _ _).2 (Or.inl hr))
      · rw [List.map_cons, List.nodup_cons]
        refine ⟨?_, h1.2⟩
        intro hmem
        rcases List.mem_map.1 hmem with ⟨d, hd, hdn⟩
        exact h1.1 d hd ((Registry.registered_append _ _ _).2 (Or.inr hdn))

/-- The state reached by a run in which no call throws. -/
theorem modelManager_runCalls_ok_state (cs : List Call) (w : HostState ι)
    (hok : ((modelManager : Host (HostState ι) HostError).runCalls cs w).1 = Except.ok ()) :
    (modelManager : Host (HostState ι) HostError).runCalls cs w
      = (Except.ok (), ⟨w.registry ++ cs.map Call.entry, w.interp⟩) :=
  modelManager_runCalls_fresh cs w (modelManager_runCalls_ok_inv cs w hok).1
    (modelManager_runCalls_ok_inv cs w hok).2

theorem initCalls_names_nodup : (initCalls.map Call.name).Nodup := by
  decide

end Model

/-! ## The module descriptor's string accessors -/

/-- C4: `showcase::name()` returns the literal "showcase" for every module
instance and from every host state, and leaves the host state (the registry
and everything else) as it was. -/
theorem name_returns_showcase {σ ε : Type} (self : showcase) (s : σ) :
    (self.name : Effect σ ε String) s = (Except.ok "showcase", s) :=
  rfl

/-- C5: `showcase::commandstring()` returns the literal "(showcase-init) run"
for every module instance and from every host state, and leaves the host state
(the registry and everything else) as it was. -/
theorem commandstring_returns_run_command {σ ε : Type} (self : showcase) (s : σ) :
    (self.commandstring : Effect σ ε String) s = (Except.ok "(showcase-init) run", s) :=
  rfl

/-! ## `init` against an arbitrary host -/

/-- C3: `init` neither catches nor replaces a host error. For every host and
host state, if the registration call at position `k` (counted from 0 in source
order) is the first to throw, with error `e` and leaving state `s1`, then
`init` throws exactly `e` from exactly `s1`, and the calls made are the ones
up to and including the failing one: no later call is performed. -/
theorem init_propagates_first_failure {σ ε : Type} (self : showcase) (h : Host σ ε)
    (i : SLIInterpreterPtr) (k : Nat) (hk : k < initCalls.length) (s sk s1 : σ) (e : ε)
    (hpre : h.runCalls (initCalls.take k) s = (Except.ok (), sk))
    (hfail : h.register_node_model (initCalls.get ⟨k, hk⟩).cls (initCalls.get ⟨k, hk⟩).name sk
      = (Except.error e, s1)) :
    self.init h i s = (Except.error e, s1)
      ∧ ∀ log : List Call,
          self.init h.traced i (s, log) = (Except.error e, (s1, log ++ initCalls.take (k + 1))) := by
  refine ⟨?_, fun log => ?_⟩
  · rw [showcase.init_eq_runCalls]
    exact Host.runCalls_first_failure h initCalls k hk hpre hfail
  · rw [showcase.init_eq_runCalls]
    exact Host.traced_runCalls_first_failure h initCalls k hk log hpre hfail

/-- The third call is the first to fail when only "iaf_cond_alpha_neuron" is
registered: `init` ends with that call's duplicate-name error after three
calls. -/
theorem init_propagates_first_failure_witness :
    (showcase.init ⟨⟩ modelManager none
        (⟨[("iaf_cond_alpha_neuron", ⟨"iaf_cond_alpha_neuron"⟩)], ()⟩ : HostState Unit)).1
      = Except.error (HostError.duplicateName "iaf_cond_alpha_neuron")
    ∧ (showcase.init ⟨⟩ (modelManager : Host (HostState Unit) HostError).traced none
        (⟨[("iaf_cond_alpha_neuron", ⟨"iaf_cond_alpha_neuron"⟩)], ()⟩, [])).2.2
      = [⟨⟨"iaf_cond_alpha_implicit"⟩, "iaf_cond_alpha_implicit"⟩,
         ⟨⟨"iaf_psc_alpha_neuron"⟩, "iaf_psc_alpha_neuron"⟩,
         ⟨⟨"iaf_cond_alpha_neuron"⟩, "iaf_cond_alpha_neuron"⟩] := by
  have h := init_propagates_first_failure (⟨⟩ : showcase)
    (modelManager : Host (HostState Unit) HostError) none 2 (by decide)
    ⟨[("iaf_cond_alpha_neuron", ⟨"iaf_cond_alpha_neuron"⟩)], ()⟩
    ⟨[("iaf_cond_alpha_neuron", ⟨"iaf_cond_alpha_neuron"⟩),
      ("iaf_cond_alpha_implicit", ⟨"iaf_cond_alpha_implicit"⟩),
      ("iaf_psc_alpha_neuron", ⟨"iaf_psc_alpha_neuron"⟩)], ()⟩
    ⟨[("iaf_cond_alpha_neuron", ⟨"iaf_cond_alpha_neuron"⟩),
      ("iaf_cond_alpha_implicit", ⟨"iaf_cond_alpha_implicit"⟩),
      ("iaf_psc_alpha_neuron", ⟨"iaf_psc_alpha_neuron"⟩)], ()⟩
    (HostError.duplicateName "iaf_cond_alpha_neuron") (by decide) (by decide)
  refine ⟨?_, ?_⟩
  · rw [h.1]
  · rw [h.2 []]
    rfl

/-- C6: when no registration call fails, `init` issues exactly five
`register_node_model` calls, in the source order of the (class, name) pairs
listed; no class occurs twice and in every pair the registration name is the
identifier of the class. The traced run has the outcome and host state of the
plain run. -/
theorem init_call_sequence {σ ε : Type} (self : showcase) (h : Host σ ε)
    (i : SLIInterpreterPtr) (s : σ) (hok : (self.init h i s).1 = Except.ok ()) :
    (self.init h.traced i (s, [])).2.2
        = [⟨⟨"iaf_cond_alpha_implicit"⟩, "iaf_cond_alpha_implicit"⟩,
           ⟨⟨"iaf_psc_alpha_neuron"⟩, "iaf_psc_alpha_neuron"⟩,
           ⟨⟨"iaf_cond_alpha_neuron"⟩, "iaf_cond_alpha_neuron"⟩,
           ⟨⟨"ht_neuron_nestml"⟩, "ht_neuron_nestml"⟩,
           ⟨⟨"iaf_psc_alpha_multisynapse_neuron"⟩, "iaf_psc_alpha_multisynapse_neuron"⟩]
      ∧ (self.init h.traced i (s, [])).2.2.length = 5
      ∧ ((self.init h.traced i (s, [])).2.2.map Call.cls).Nodup
      ∧ (∀ c ∈ (self.init h.traced i (s, [])).2.2, c.name = c.cls.ident)
      ∧ (self.init h.traced i (s, [])).1 = (self.init h i s).1
      ∧ (self.init h.traced i (s, [])).2.1 = (self.init h i s).2 := by
  rw [showcase.init_eq_runCalls] at hok
  rw [showcase.init_eq_runCalls, showcase.init_eq_runCalls]
  have hrun : h.runCalls initCalls s = (Except.ok (), (h.runCalls initCalls s).2) :=
    Prod.ext hok rfl
  have ht := Host.traced_runCalls_ok h initCalls [] hrun
  rw [ht]
  have hcls : (initCalls.map Call.cls).Nodup := by decide
  have hident : ∀ c ∈ initCalls, c.name = c.cls.ident := by decide
  exact ⟨rfl, rfl, hcls, hident, hok.symm, rfl⟩

/-- On the empty registry of the modelled host no call fails, and the five
calls are logged. -/
theorem init_call_sequence_witness :
    (showcase.init ⟨⟩ modelManager none (⟨[], ()⟩ : HostState Unit)).1 = Except.ok ()
    ∧ (showcase.init ⟨⟩ (modelManager : Host (HostState Unit) HostError).traced none
        (⟨[], ()⟩, [])).2.2.length = 5 :=
  ⟨by decide,
    (init_call_sequence (⟨⟩ : showcase) (modelManager : Host (HostState Unit) HostError) none
      ⟨[], ()⟩ (by decide)).2.1⟩

/-- C7: the interpreter handle passed to `init` is unused. For every host and
host state, `init` with any two handles (the null handle `none` included) has
the same outcome and the same resulting host state; and against the modelled
registry the interpreter memory after `init` is the one before. -/
theorem init_ignores_interpreter {σ ε ι : Type} (self : showcase) (h : Host σ ε) (s : σ)
    (w : HostState ι) (i1 i2 : SLIInterpreterPtr) :
    self.init h i1 s = self.init h i2 s
      ∧ self.init h none s = self.init h i1 s
      ∧ (self.init modelManager i1 w).1 = (self.init modelManager i2 w).1
      ∧ (self.init modelManager i1 w).2.registry = (self.init modelManager i2 w).2.registry
      ∧ (self.init modelManager i1 w).2.interp = w.interp
      ∧ (self.init modelManager i2 w).2.interp = w.interp := by
  have hinterp : ∀ (cs : List Call) (v : HostState ι),
      ((modelManager : Host (HostState ι) HostError).runCalls cs v).2.interp = v.interp := by
    intro cs
    induction cs with
    | nil => intro v; rfl
    | cons c cs ih =>
      intro v
      by_cases hreg : Registry.registered v.registry c.name
      · rw [Host.runCalls_cons_error _ c cs (modelManager_register_dup c.cls c.name v hreg)]
      · rw [Host.runCalls_cons_ok _ c cs (modelManager_register_fresh c.cls c.name v hreg)]
        exact ih _
  refine ⟨rfl, rfl, rfl, rfl, ?_, ?_⟩
  · rw [showcase.init_eq_runCalls]
    exact hinterp _ _
  · rw [showcase.init_eq_runCalls]
    exact hinterp _ _

/-! ## `init` against the modelled registry -/

section Registry

variable {ι : Type}

/-- The state `init` reaches when it returns: the registry followed by the
five new entries. -/
theorem showcase.init_ok_state (self : showcase) (i : SLIInterpreterPtr) (w : HostState ι)
    (hok : (self.init modelManager i w).1 = Except.ok ()) :
    self.init modelManager i w
      = (Except.ok (), ⟨w.registry ++ initCalls.map Call.entry, w.interp⟩) := by
  rw [showcase.init_eq_runCalls] at hok ⊢
  exact modelManager_runCalls_ok_state initCalls w hok

/-- When `init` returns, none of the five names was registered before. -/
theorem showcase.init_ok_fresh (self : showcase) (i : SLIInterpreterPtr) (w : HostState ι)
    (hok : (self.init modelManager i w).1 = Except.ok ()) :
    ∀ c ∈ initCalls, ¬ Registry.registered w.registry c.name := by
  rw [showcase.init_eq_runCalls] at hok
  exact (modelManager_runCalls_ok_inv initCalls w hok).1

theorem Registry.resolve_append_of_not_registered (r r1 : Registry) (n : String)
    (hn : ¬ Registry.registered r n) :
    Registry.resolve (r ++ r1) n = Registry.resolve r1 n := by
  have hnone : r.find? (fun e => e.1 == n) = none := by
    rw [List.find?_eq_none]
    intro x hx hxn
    exact hn (List.mem_map.2 ⟨x, hx, by simpa using hxn⟩)
  simp [Registry.resolve, List.find?_append, hnone]

theorem Registry.resolve_append_of_resolve (r r1 : Registry) (n : String) (c : ModelClass)
    (hn : Registry.resolve r n = some c) :
    Registry.resolve (r ++ r1) n = some c := by
  unfold Registry.resolve at hn ⊢
  rw [List.find?_append]
  cases hf : r.find? (fun e => e.1 == n) with
  | none => simp [hf] at hn
  | some x => simpa [hf] using hn

/-- C1: for every host state on which `init` completes without error, each of
the five fixed names is registered after `init` returns, and it resolves to
the model class of the same identifier. -/
theorem init_registers_five_names (self : showcase) (i : SLIInterpreterPtr) (w : HostState ι)
    (hok : (self.init modelManager i w).1 = Except.ok ()) :
    ∀ n ∈ ["iaf_cond_alpha_implicit", "iaf_psc_alpha_neuron", "iaf_cond_alpha_neuron",
        "ht_neuron_nestml", "iaf_psc_alpha_multisynapse_neuron"],
      Registry.registered (self.init modelManager i w).2.registry n
        ∧ Registry.resolve (self.init modelManager i w).2.registry n = some ⟨n⟩ := by
  intro n hn
  have hfresh := showcase.init_ok_fresh self i w hok
  rw [showcase.init_ok_state self i w hok]
  have hmem : n ∈ initCalls.map Call.name := hn
  refine ⟨(Registry.registered_append_list _ _ _).2
    (Or.inr ((Registry.registered_entries _ _).2 hmem)), ?_⟩
  rcases List.mem_map.1 hmem with ⟨c, hc, rfl⟩
  show Registry.resolve (w.registry ++ initCalls.map Call.entry) c.name = some ⟨c.name⟩
  rw [Registry.resolve_append_of_not_registered _ _ _ (hfresh c hc)]
  revert c
  decide

/-- From the empty registry `init` returns, and "ht_neuron_nestml" is then
registered. -/
theorem init_registers_five_names_witness :
    (showcase.init ⟨⟩ modelManager none (⟨[], ()⟩ : HostState Unit)).1 = Except.ok ()
    ∧ Registry.registered
        (showcase.init ⟨⟩ modelManager none (⟨[], ()⟩ : HostState Unit)).2.registry
        "ht_neuron_nestml" :=
  ⟨by decide,
    (init_registers_five_names (⟨⟩ : showcase) none (⟨[], ()⟩ : HostState Unit) (by decide)
      "ht_neuron_nestml" (by decide)).1⟩

/-- C2: for every host state on which `init` succeeds, running `init` a second
time on the resulting state does not succeed: it throws the duplicate-name
error for "iaf_cond_alpha_implicit" and changes nothing, and the only call it
makes is the first registration call. -/
theorem init_twice_fails (self : showcase) (i i2 : SLIInterpreterPtr) (w : HostState ι)
    (hok : (self.init modelManager i w).1 = Except.ok ()) :
    self.init modelManager i2 (self.init modelManager i w).2
        = (Except.error (HostError.duplicateName "iaf_cond_alpha_implicit"),
            (self.init modelManager i w).2)
      ∧ (self.init (modelManager : Host (HostState ι) HostError).traced i2
            ((self.init modelManager i w).2, [])).2.2
          = [⟨⟨"iaf_cond_alpha_implicit"⟩, "iaf_cond_alpha_implicit"⟩] := by
  have hreg : Registry.registered (self.init modelManager i w).2.registry
      "iaf_cond_alpha_implicit" := by
    rw [showcase.init_ok_state self i w hok]
    exact (Registry.registered_append_list _ _ _).2
      (Or.inr ((Registry.registered_entries _ _).2 (by decide)))
  have hk : 0 < initCalls.length := by decide
  have hfail := modelManager_register_dup ⟨"iaf_cond_alpha_implicit"⟩
    "iaf_cond_alpha_implicit" (self.init modelManager i w).2 hreg
  have hpre : (modelManager : Host (HostState ι) HostError).runCalls (initCalls.take 0)
      (self.init modelManager i w).2 = (Except.ok (), (self.init modelManager i w).2) := rfl
  refine ⟨?_, ?_⟩
  · rw [showcase.init_eq_runCalls self modelManager i2]
    exact Host.runCalls_first_failure modelManager initCalls 0 hk hpre hfail
  · rw [showcase.init_eq_runCalls self _ i2,
      Host.traced_runCalls_first_failure modelManager initCalls 0 hk [] hpre hfail]
    rfl

/-- After a first `init` on the empty registry, a second `init` fails with the
duplicate-name error for "iaf_cond_alpha_implicit". -/
theorem init_twice_fails_witness :
    (showcase.init ⟨⟩ modelManager none (⟨[], ()⟩ : HostState Unit)).1 = Except.ok ()
    ∧ (showcase.init ⟨⟩ modelManager none
        (showcase.init ⟨⟩ modelManager none (⟨[], ()⟩ : HostState Unit)).2).1
      = Except.error (HostError.duplicateName "iaf_cond_alpha_implicit") :=
  ⟨by decide,
    congrArg Prod.fst
      (init_twice_fails (⟨⟩ : showcase) none none (⟨[], ()⟩ : HostState Unit) (by decide)).1⟩

/-- C8: the five names `init` passes to the registry are pairwise distinct,
and from every host state whose registry contains none of them `init`
completes successfully: it raises no duplicate-name error (no error at all),
and the names it passed are those five. -/
theorem init_succeeds_on_fresh_registry (self : showcase) (i : SLIInterpreterPtr)
    (w : HostState ι)
    (hfresh : ∀ n ∈ ["iaf_cond_alpha_implicit", "iaf_psc_alpha_neuron", "iaf_cond_alpha_neuron",
        "ht_neuron_nestml", "iaf_psc_alpha_multisynapse_neuron"],
      ¬ Registry.registered w.registry n) :
    ["iaf_cond_alpha_implicit", "iaf_psc_alpha_neuron", "iaf_cond_alpha_neuron",
        "ht_neuron_nestml", "iaf_psc_alpha_multisynapse_neuron"].Nodup
      ∧ (self.init modelManager i w).1 = Except.ok ()
      ∧ (∀ n, (self.init modelManager i w).1 ≠ Except.error (HostError.duplicateName n))
      ∧ (self.init (modelManager : Host (HostState ι) HostError).traced i (w, [])).2.2.map
            Call.name
          = ["iaf_cond_alpha_implicit", "iaf_psc_alpha_neuron", "iaf_cond_alpha_neuron",
              "ht_neuron_nestml", "iaf_psc_alpha_multisynapse_neuron"] := by
  have hfresh1 : ∀ c ∈ initCalls, ¬ Registry.registered w.registry c.name :=
    fun c hc => hfresh c.name (List.mem_map_of_mem Call.name hc)
  have hrun := modelManager_runCalls_fresh initCalls w hfresh1 initCalls_names_nodup
  have ht := Host.traced_runCalls_ok modelManager initCalls [] hrun
  rw [showcase.init_eq_runCalls, showcase.init_eq_runCalls, hrun, ht]
  refine ⟨by decide, rfl, ?_, rfl⟩
  intro n hn
  cases hn

/-- The empty registry contains none of the five names, and `init` succeeds
on it. -/
theorem init_succeeds_on_fresh_registry_witness :
    (∀ n ∈ ["iaf_cond_alpha_implicit", "iaf_psc_alpha_neuron", "iaf_cond_alpha_neuron",
        "ht_neuron_nestml", "iaf_psc_alpha_multisynapse_neuron"],
      ¬ Registry.registered (⟨[], ()⟩ : HostState Unit).registry n)
    ∧ (showcase.init ⟨⟩ modelManager none (⟨[], ()⟩ : HostState Unit)).1 = Except.ok () :=
  ⟨by decide,
    (init_succeeds_on_fresh_registry (⟨⟩ : showcase) none (⟨[], ()⟩ : HostState Unit)
      (by decide)).2.1⟩

/-- C9, as stated, fails: from the registry holding "iaf_cond_alpha_neuron" and
"ht_neuron_nestml" the first two calls return, the third call is the first to
fail and `init` fails with its error, yet "ht_neuron_nestml", the name of a
later call, is registered afterwards. -/
theorem init_later_name_registered_counterexample :
    ((modelManager : Host (HostState Unit) HostError).runCalls (initCalls.take 2)
        ⟨[("iaf_cond_alpha_neuron", ⟨"iaf_cond_alpha_neuron"⟩),
          ("ht_neuron_nestml", ⟨"ht_neuron_nestml"⟩)], ()⟩).1 = Except.ok ()
    ∧ ((modelManager : Host (HostState Unit) HostError).register_node_model
        ⟨"iaf_cond_alpha_neuron"⟩ "iaf_cond_alpha_neuron"
        ((modelManager : Host (HostState Unit) HostError).runCalls (initCalls.take 2)
          ⟨[("iaf_cond_alpha_neuron", ⟨"iaf_cond_alpha_neuron"⟩),
            ("ht_neuron_nestml", ⟨"ht_neuron_nestml"⟩)], ()⟩).2).1
        = Except.error (HostError.duplicateName "iaf_cond_alpha_neuron")
    ∧ (showcase.init ⟨⟩ modelManager none
        (⟨[("iaf_cond_alpha_neuron", ⟨"iaf_cond_alpha_neuron"⟩),
           ("ht_neuron_nestml", ⟨"ht_neuron_nestml"⟩)], ()⟩ : HostState Unit)).1
        = Except.error (HostError.duplicateName "iaf_cond_alpha_neuron")
    ∧ ⟨⟨"ht_neuron_nestml"⟩, "ht_neuron_nestml"⟩ ∈ initCalls.drop 3
    ∧ Registry.registered
        (showcase.init ⟨⟩ modelManager none
          (⟨[("iaf_cond_alpha_neuron", ⟨"iaf_cond_alpha_neuron"⟩),
             ("ht_neuron_nestml", ⟨"ht_neuron_nestml"⟩)], ()⟩ : HostState Unit)).2.registry
        "ht_neuron_nestml" := by
  decide

/-- C9, amended: `init` is not atomic. When the call at position `k` (counted
from 0 in source order) is the first to fail, `init` fails with that call's
duplicate-name error and there is no rollback: the registry afterwards is the
starting registry followed by the entries of the `k` earlier calls, so the
names of the earlier calls are registered, and the name of a later call is
registered afterwards exactly when it was registered before `init`. -/
theorem init_not_atomic (self : showcase) (i : SLIInterpreterPtr) (w wk w1 : HostState ι)
    (k : Nat) (hk : k < initCalls.length) (e : HostError)
    (hpre : (modelManager : Host (HostState ι) HostError).runCalls (initCalls.take k) w
      = (Except.ok (), wk))
    (hfail : (modelManager : Host (HostState ι) HostError).register_node_model
      (initCalls.get ⟨k, hk⟩).cls (initCalls.get ⟨k, hk⟩).name wk = (Except.error e, w1)) :
    self.init modelManager i w = (Except.error e, w1)
      ∧ e = HostError.duplicateName (initCalls.get ⟨k, hk⟩).name
      ∧ (self.init modelManager i w).2.registry
          = w.registry ++ (initCalls.take k).map Call.entry
      ∧ (∀ c ∈ initCalls.take k,
          Registry.registered (self.init modelManager i w).2.registry c.name)
      ∧ (∀ c ∈ initCalls.drop (k + 1),
          (Registry.registered (self.init modelManager i w).2.registry c.name
            ↔ Registry.registered w.registry c.name)) := by
  have hinit : self.init modelManager i w = (Except.error e, w1) := by
    rw [showcase.init_eq_runCalls]
    exact Host.runCalls_first_failure modelManager initCalls k hk hpre hfail
  have hwk : wk = ⟨w.registry ++ (initCalls.take k).map Call.entry, w.interp⟩ := by
    have h1 := modelManager_runCalls_ok_state (initCalls.take k) w (by rw [hpre])
    rw [hpre] at h1
    exact congrArg Prod.snd h1
  have hdup : e = HostError.duplicateName (initCalls.get ⟨k, hk⟩).name ∧ w1 = wk := by
    by_cases hreg : Registry.registered wk.registry (initCalls.get ⟨k, hk⟩).name
    · rw [modelManager_register_dup _ _ wk hreg] at hfail
      cases hfail
      exact ⟨rfl, rfl⟩
    · rw [modelManager_register_fresh _ _ wk hreg] at hfail
      cases hfail
  have hreg : (self.init modelManager i w).2.registry
      = w.registry ++ (initCalls.take k).map Call.entry := by
    rw [hinit, hdup.2, hwk]
  refine ⟨hinit, hdup.1, hreg, ?_, ?_⟩
  · intro c hc
    rw [hreg]
    exact (Registry.registered_append_list _ _ _).2
      (Or.inr ((Registry.registered_entries _ _).2 (List.mem_map_of_mem Call.name hc)))
  · intro c hc
    rw [hreg, Registry.registered_append_list, Registry.registered_entries]
    refine ⟨fun h => h.elim id (fun hmem => ?_), Or.inl⟩
    exfalso
    have hnd : ((initCalls.take k).map Call.name ++ (initCalls.drop k).map Call.name).Nodup := by
      rw [← List.map_append, List.take_append_drop]
      exact initCalls_names_nodup
    have hdisj := (List.nodup_append.1 hnd).2.2
    have hsub : c ∈ initCalls.drop k := by
      have hd : initCalls.drop (k + 1) = (initCalls.drop k).drop 1 := by
        rw [List.drop_drop, Nat.add_comm]
      rw [hd] at hc
      exact List.mem_of_mem_drop hc
    exact hdisj hmem (List.mem_map_of_mem Call.name hsub)

/-- The example of C9: from a registry that holds only "iaf_cond_alpha_neuron",
`init` fails at the third call; afterwards "iaf_cond_alpha_implicit" and
"iaf_psc_alpha_neuron" are registered while "ht_neuron_nestml" and
"iaf_psc_alpha_multisynapse_neuron" are not. -/
theorem init_not_atomic_witness :
    (showcase.init ⟨⟩ modelManager none
        (⟨[("iaf_cond_alpha_neuron", ⟨"iaf_cond_alpha_neuron"⟩)], ()⟩ : HostState Unit)).1
      = Except.error (HostError.duplicateName "iaf_cond_alpha_neuron")
    ∧ Registry.registered (showcase.init ⟨⟩ modelManager none
        (⟨[("iaf_cond_alpha_neuron", ⟨"iaf_cond_alpha_neuron"⟩)], ()⟩ : HostState Unit)).2.registry
        "iaf_cond_alpha_implicit"
    ∧ Registry.registered (showcase.init ⟨⟩ modelManager none
        (⟨[("iaf_cond_alpha_neuron", ⟨"iaf_cond_alpha_neuron"⟩)], ()⟩ : HostState Unit)).2.registry
        "iaf_psc_alpha_neuron"
    ∧ ¬ Registry.registered (showcase.init ⟨⟩ modelManager none
        (⟨[("iaf_cond_alpha_neuron", ⟨"iaf_cond_alpha_neuron"⟩)], ()⟩ : HostState Unit)).2.registry
        "ht_neuron_nestml"
    ∧ ¬ Registry.registered (showcase.init ⟨⟩ modelManager none
        (⟨[("iaf_cond_alpha_neuron", ⟨"iaf_cond_alpha_neuron"⟩)], ()⟩ : HostState Unit)).2.registry
        "iaf_psc_alpha_multisynapse_neuron" := by
  have h := init_not_atomic (⟨⟩ : showcase) none
    (⟨[("iaf_cond_alpha_neuron", ⟨"iaf_cond_alpha_neuron"⟩)], ()⟩ : HostState Unit)
    ⟨[("iaf_cond_alpha_neuron", ⟨"iaf_cond_alpha_neuron"⟩),
      ("iaf_cond_alpha_implicit", ⟨"iaf_cond_alpha_implicit"⟩),
      ("iaf_psc_alpha_neuron", ⟨"iaf_psc_alpha_neuron"⟩)], ()⟩
    ⟨[("iaf_cond_alpha_neuron", ⟨"iaf_cond_alpha_neuron"⟩),
      ("iaf_cond_alpha_implicit", ⟨"iaf_cond_alpha_implicit"⟩),
      ("iaf_psc_alpha_neuron", ⟨"iaf_psc_alpha_neuron"⟩)], ()⟩
    2 (by decide) (HostError.duplicateName "iaf_cond_alpha_neuron") (by decide) (by decide)
  refine ⟨?_, ?_, ?_, ?_, ?_⟩
  · rw [h.1]
  · exact h.2.2.2.1 ⟨⟨"iaf_cond_alpha_implicit"⟩, "iaf_cond_alpha_implicit"⟩ (by decide)
  · exact h.2.2.2.1 ⟨⟨"iaf_psc_alpha_neuron"⟩, "iaf_psc_alpha_neuron"⟩ (by decide)
  · exact fun hr => absurd
      ((h.2.2.2.2 ⟨⟨"ht_neuron_nestml"⟩, "ht_neuron_nestml"⟩ (by decide)).1 hr) (by decide)
  · exact fun hr => absurd
      ((h.2.2.2.2 ⟨⟨"iaf_psc_alpha_multisynapse_neuron"⟩, "iaf_psc_alpha_multisynapse_neuron"⟩
        (by decide)).1 hr) (by decide)

/-- C10: `init` only adds to the registry. For every host state on which `init`
succeeds, the registry afterwards is the registry before followed by the five
new entries: every entry present before is still present, every name that
resolved before resolves to the same model class, the registered names are
exactly the names registered before together with the five fixed names, and
the rest of the host state is unchanged. -/
theorem init_only_adds (self : showcase) (i : SLIInterpreterPtr) (w : HostState ι)
    (hok : (self.init modelManager i w).1 = Except.ok ()) :
    (self.init modelManager i w).2.registry
        = w.registry ++
          [("iaf_cond_alpha_implicit", ⟨"iaf_cond_alpha_implicit"⟩),
           ("iaf_psc_alpha_neuron", ⟨"iaf_psc_alpha_neuron"⟩),
           ("iaf_cond_alpha_neuron", ⟨"iaf_cond_alpha_neuron"⟩),
           ("ht_neuron_nestml", ⟨"ht_neuron_nestml"⟩),
           ("iaf_psc_alpha_multisynapse_neuron", ⟨"iaf_psc_alpha_multisynapse_neuron"⟩)]
      ∧ (∀ en ∈ w.registry, en ∈ (self.init modelManager i w).2.registry)
      ∧ (∀ n c, Registry.resolve w.registry n = some c →
          Registry.resolve (self.init modelManager i w).2.registry n = some c)
      ∧ (∀ n, Registry.registered (self.init modelManager i w).2.registry n
          ↔ (Registry.registered w.registry n
              ∨ n ∈ ["iaf_cond_alpha_implicit", "iaf_psc_alpha_neuron", "iaf_cond_alpha_neuron",
                  "ht_neuron_nestml", "iaf_psc_alpha_multisynapse_neuron"]))
      ∧ (self.init modelManager i w).2.interp = w.interp := by
  rw [showcase.init_ok_state self i w hok]
  refine ⟨rfl, ?_, ?_, ?_, rfl⟩
  · intro en hen
    exact List.mem_append_left _ hen
  · intro n c hn
    exact Registry.resolve_append_of_resolve _ _ n c hn
  · intro n
    show Registry.registered (w.registry ++ initCalls.map Call.entry) n ↔ _
    rw [Registry.registered_append_list, Registry.registered_entries]
    exact Iff.rfl

/-- From a registry holding one other model, `init` succeeds and the registry
afterwards is that entry followed by the five new ones. -/
theorem init_only_adds_witness :
    (showcase.init ⟨⟩ modelManager none
        (⟨[("iaf_neuron", ⟨"iaf_neuron"⟩)], ()⟩ : HostState Unit)).1 = Except.ok ()
    ∧ (showcase.init ⟨⟩ modelManager none
        (⟨[("iaf_neuron", ⟨"iaf_neuron"⟩)], ()⟩ : HostState Unit)).2.registry
      = [("iaf_neuron", ⟨"iaf_neuron"⟩),
         ("iaf_cond_alpha_implicit", ⟨"iaf_cond_alpha_implicit"⟩),
         ("iaf_psc_alpha_neuron", ⟨"iaf_psc_alpha_neuron"⟩),
         ("iaf_cond_alpha_neuron", ⟨"iaf_cond_alpha_neuron"⟩),
         ("ht_neuron_nestml", ⟨"ht_neuron_nestml"⟩),
         ("iaf_psc_alpha_multisynapse_neuron", ⟨"iaf_psc_alpha_multisynapse_neuron"⟩)] :=
  ⟨by decide,
    (init_only_adds (⟨⟩ : showcase) none
      (⟨[("iaf_neuron", ⟨"iaf_neuron"⟩)], ()⟩ : HostState Unit) (by decide)).1⟩

end Registry

end ShowcaseModule
